import Mathlib

/-!
Verification of the pandapower converter
(src/power_grid_model_io/converters/pandapower_converter.py).

The Python source is shallowly embedded below: pandas Series / numpy arrays
become Lean lists, floating point numbers become rationals, Python dicts
become association lists, and raising exceptions becomes returning
`Except String`.  Machine-specific floating-point rounding is not modelled;
all power arithmetic is exact rational arithmetic.
-/

namespace PandaPowerConverter

instance {ε α : Type} [DecidableEq ε] [DecidableEq α] :
    DecidableEq (Except ε α) := fun x y =>
  match x, y with
  | .error a, .error b => decidable_of_iff (a = b) (by simp)
  | .error _, .ok _ => isFalse (by simp)
  | .ok _, .error _ => isFalse (by simp)
  | .ok a, .ok b => decidable_of_iff (a = b) (by simp)

/-- Association-list lookup, modelling Python `dict.__getitem__` /
`key in dict` for the small dictionaries used by the converter. -/
def assocFind {κ α : Type} [DecidableEq κ] : List (κ × α) → κ → Option α
  | [], _ => none
  | (k, v) :: rest, k₀ => if k = k₀ then some v else assocFind rest k₀

/-! ## Identifier registry (`_generate_ids`, `_get_pp_ids`, `_parse_data`,
`_extra_info_to_idx_lookup`)

The Python dictionaries `self.idx` and `self.idx_lookup` are declared with
keys of type `Tuple[str, Optional[str]]`, but `_extra_info_to_idx_lookup`
inserts entries keyed by a bare `str`.  A Python dict can hold both key
shapes at once and a tuple key never equals a string key, so the key type is
embedded as a sum of both shapes. -/

/-- A key of `self.idx` / `self.idx_lookup`: either the `(pp_table, name)`
tuple used by `_generate_ids` and friends, or the bare `pp_table` string
used by `_extra_info_to_idx_lookup`. -/
inductive PPKey where
  | pair (table : String) (name : Option String)
  | bare (table : String)
deriving DecidableEq

/-- The registry state of the converter: `self.idx` (pandas Series per key,
pp index -> pgm id), `self.idx_lookup` (pgm id -> pp index) and the global
counter `self.next_idx`.  A pandas Series is embedded as its ordered list of
(index label, value) pairs. -/
structure RegState where
  idx : List (PPKey × List (Int × Nat))
  idx_lookup : List (PPKey × List (Nat × Int))
  next_idx : Nat
deriving DecidableEq

/-- The empty registry of a freshly constructed converter. -/
def regInit : RegState := ⟨[], [], 0⟩

/-- `_parse_data` lines 53-56: at the start of a conversion pass the
converter clears `self.idx_lookup` and resets `self.next_idx` to 0
(`self.idx` is left as is; the assert in `_generate_ids` only consults
`self.idx_lookup`). -/
def resetPass (s : RegState) : RegState :=
  { idx := s.idx, idx_lookup := [], next_idx := 0 }

/-- `_generate_ids`: asserts the `(pp_table, name)` key is fresh, assigns
`len(pp_idx)` consecutive pgm ids starting at `self.next_idx`, stores both
directions and advances the counter. -/
def generateIds (s : RegState) (table : String) (ppIdx : List Int)
    (name : Option String) : Except String (List Nat × RegState) :=
  let key := PPKey.pair table name
  if (assocFind s.idx_lookup key).isSome then
    .error "AssertionError: key already in idx_lookup"
  else
    let n := ppIdx.length
    let pgmIdx := (List.range n).map (fun i => s.next_idx + i)
    .ok (pgmIdx,
      { idx := (key, ppIdx.zip pgmIdx) :: s.idx,
        idx_lookup := (key, pgmIdx.zip ppIdx) :: s.idx_lookup,
        next_idx := s.next_idx + n })

/-- `_get_pp_ids`: reverse lookup pgm ids -> pp indices.  If the stored
Series index equals the queried ids the Series is returned whole, otherwise
the Series is indexed element-wise (a missing id raises `KeyError`). -/
def getPpIds (s : RegState) (table : String) (pgmIdx : List Nat)
    (name : Option String) : Except String (List Int) :=
  match assocFind s.idx_lookup (PPKey.pair table name) with
  | none => .error "KeyError: No indexes have been created"
  | some ser =>
    if ser.map Prod.fst = pgmIdx then
      .ok (ser.map Prod.snd)
    else
      pgmIdx.mapM (fun g =>
        match assocFind ser g with
        | some pp => Except.ok pp
        | none => Except.error "KeyError: pgm id not in idx_lookup")

/-- One id-allocation request of a forward converter: a call
`_generate_ids(pp_table, pp_idx, name)`. -/
structure AllocReq where
  table : String
  name : Option String
  ppIdx : List Int

/-- A sequence of forward converters allocating ids one after another
(as `_create_input_data` does for every device family). -/
def runAllocs : RegState → List AllocReq → Except String (List (List Nat) × RegState)
  | s, [] => .ok ([], s)
  | s, r :: rest =>
    match generateIds s r.table r.ppIdx r.name with
    | .error e => .error e
    | .ok (ids, s₁) =>
      match runAllocs s₁ rest with
      | .error e => .error e
      | .ok (idss, s₂) => .ok (ids :: idss, s₂)

/-! ## Sidecar extra info (`_parse_data` lines 67-74,
`_extra_info_to_idx_lookup` lines 106-122) -/

/-- One `"id_reference"` record of the sidecar: the pp table, the optional
qualifier (the `"name"` key, omitted when the name is falsy) and the pp
index. -/
structure ExtraRef where
  table : String
  name : Option String
  index : Int
deriving DecidableEq

/-- `_parse_data` lines 67-74: for every `(pp_table, name)` group of
`self.idx_lookup` and every `(pgm_idx, pp_idx)` pair of its Series, record
an `"id_reference"` entry; the `"name"` key is written only when `name` is
truthy (non-empty). -/
def buildExtraInfo (idxLookup : List (PPKey × List (Nat × Int))) :
    List (Nat × ExtraRef) :=
  idxLookup.flatMap (fun kv =>
    let tn : String × Option String :=
      match kv.1 with
      | .pair t nm => (t, nm)
      | .bare t => (t, none)
    kv.2.map (fun gi =>
      (gi.1,
        { table := tn.1,
          name := match tn.2 with
            | some nm => if nm.isEmpty then none else some nm
            | none => none,
          index := gi.2 })))

/-- First-occurrence deduplication, modelling the insertion order of the
Python dict `pgm_to_pp_id`. -/
def firstDedup : List String → List String
  | [] => []
  | a :: rest => a :: (firstDedup rest).filter (fun b => b ≠ a)

/-- `_extra_info_to_idx_lookup`: rebuilds `self.idx` and `self.idx_lookup`
from the sidecar.  Note that the Python code reads only the `"table"` and
`"index"` fields of each `"id_reference"` (the `"name"` qualifier is
ignored) and keys both dicts by the bare table string `pp_table`, not by a
`(pp_table, name)` tuple. -/
def extraInfoToIdxLookup (ei : List (Nat × ExtraRef)) : RegState :=
  let tables := firstDedup (ei.map (fun e => e.2.table))
  let pairsFor := fun t =>
    (ei.filter (fun e => e.2.table = t)).map (fun e => (e.1, e.2.index))
  { idx := tables.map (fun t =>
      (PPKey.bare t, (pairsFor t).map (fun gi => (gi.2, gi.1)))),
    idx_lookup := tables.map (fun t => (PPKey.bare t, pairsFor t)),
    next_idx := 0 }

/-! ## Symmetric load split (`_create_pgm_input_sym_loads`, lines 259-300) -/

/-- The columns of one row of the pandapower `load` table that enter the
power computation of `_create_pgm_input_sym_loads`. -/
structure LoadRow where
  p_mw : ℚ
  q_mvar : ℚ
  const_i_percent : ℚ
  const_z_percent : ℚ
  scaling : ℚ

/-- Line 271-273: `const_i_percent * scaling * (1e-2 * 1e6)`. -/
def const_i_multiplier (r : LoadRow) : ℚ :=
  r.const_i_percent * r.scaling * (1/100 * 1000000)

/-- Line 274-276: `const_z_percent * scaling * (1e-2 * 1e6)`. -/
def const_z_multiplier (r : LoadRow) : ℚ :=
  r.const_z_percent * r.scaling * (1/100 * 1000000)

/-- Line 277: `(1e6 - const_i_multiplier - const_z_multiplier) * scaling`. -/
def const_p_multiplier (r : LoadRow) : ℚ :=
  (1000000 - const_i_multiplier r - const_z_multiplier r) * r.scaling

/-- Line 283: `p_specified` of the constant-power record. -/
def p_const_power (r : LoadRow) : ℚ := const_p_multiplier r * r.p_mw

/-- Line 290: `p_specified` of the constant-impedance record. -/
def p_const_impedance (r : LoadRow) : ℚ := const_z_multiplier r * r.p_mw

/-- Line 297: `p_specified` of the constant-current record. -/
def p_const_current (r : LoadRow) : ℚ := const_i_multiplier r * r.p_mw

/-- Line 284: `q_specified` of the constant-power record. -/
def q_const_power (r : LoadRow) : ℚ := const_p_multiplier r * r.q_mvar

/-- Line 291: `q_specified` of the constant-impedance record. -/
def q_const_impedance (r : LoadRow) : ℚ := const_z_multiplier r * r.q_mvar

/-- Line 298: `q_specified` of the constant-current record. -/
def q_const_current (r : LoadRow) : ℚ := const_i_multiplier r * r.q_mvar

/-! ## Tap size (`_get_tap_size` lines 816-826,
`_get_3wtransformer_tap_size` lines 845-858) -/

/-- The columns of one `trafo` row used by `_get_tap_size`. -/
structure TrafoRow where
  tap_side : String
  tap_step_percent : ℚ
  vn_hv_kv : ℚ
  vn_lv_kv : ℚ

/-- One entry of the `tap_size` array of `_get_tap_size`:
`tap_step_multiplier = tap_step_percent * (1e-2 * 1e3)` and the masked
writes assign `tap_step_multiplier * vn_hv_kv` on the "hv" mask and
`tap_step_multiplier * vn_lv_kv` on the "lv" mask; a row matching neither
mask keeps the uninitialised `np.empty` contents (`junk`). -/
def tapSizeRow (junk : ℚ) (r : TrafoRow) : ℚ :=
  if r.tap_side = "hv" then r.tap_step_percent * (1/100 * 1000) * r.vn_hv_kv
  else if r.tap_side = "lv" then r.tap_step_percent * (1/100 * 1000) * r.vn_lv_kv
  else junk

/-- `_get_tap_size`, positionally from array offset `k`; `junk` supplies
the uninitialised `np.empty` contents per position. -/
def getTapSizeFrom (junk : Nat → ℚ) : Nat → List TrafoRow → List ℚ
  | _, [] => []
  | k, r :: rest => tapSizeRow (junk k) r :: getTapSizeFrom junk (k + 1) rest

/-- `_get_tap_size(pp_trafo)`. -/
def get_tap_size (junk : Nat → ℚ) (rows : List TrafoRow) : List ℚ :=
  getTapSizeFrom junk 0 rows

/-- The columns of one `trafo3w` row used by
`_get_3wtransformer_tap_size`. -/
structure Trafo3wRow where
  tap_side : String
  tap_step_percent : ℚ
  vn_hv_kv : ℚ
  vn_mv_kv : ℚ
  vn_lv_kv : ℚ

/-- One entry of the `tap_size` array of `_get_3wtransformer_tap_size`
(three masks: "hv", "mv", "lv"). -/
def tapSizeRow3w (junk : ℚ) (r : Trafo3wRow) : ℚ :=
  if r.tap_side = "hv" then r.tap_step_percent * (1/100 * 1000) * r.vn_hv_kv
  else if r.tap_side = "mv" then r.tap_step_percent * (1/100 * 1000) * r.vn_mv_kv
  else if r.tap_side = "lv" then r.tap_step_percent * (1/100 * 1000) * r.vn_lv_kv
  else junk

/-- `_get_3wtransformer_tap_size`, positionally from array offset `k`. -/
def getTapSize3wFrom (junk : Nat → ℚ) : Nat → List Trafo3wRow → List ℚ
  | _, [] => []
  | k, r :: rest => tapSizeRow3w (junk k) r :: getTapSize3wFrom junk (k + 1) rest

/-- `_get_3wtransformer_tap_size(pp_3wtrafo)`. -/
def get_3wtransformer_tap_size (junk : Nat → ℚ) (rows : List Trafo3wRow) :
    List ℚ :=
  getTapSize3wFrom junk 0 rows

/-! ## Three-winding transformer output (`_pp_trafos3w_output`,
lines 648-707) -/

/-- The power fields of one `three_winding_transformer` result record. -/
structure Trafo3wRes where
  p_1 : ℚ
  p_2 : ℚ
  p_3 : ℚ
  q_1 : ℚ
  q_2 : ℚ
  q_3 : ℚ
deriving DecidableEq

/-- Lines 693-695: the `ql_mvar` column of the `trafo3w` output table,
`(p_1 + p_2 + p_3) * 1e-6`. -/
def trafos3w_ql_mvar (rows : List Trafo3wRes) : List ℚ :=
  rows.map (fun r => (r.p_1 + r.p_2 + r.p_3) * (1/1000000))

/-- Lines 690-692: the `pl_mw` column of the `trafo3w` output table,
`(p_1 + p_2 + p_3) * 1e-6`. -/
def trafos3w_pl_mw (rows : List Trafo3wRes) : List ℚ :=
  rows.map (fun r => (r.p_1 + r.p_2 + r.p_3) * (1/1000000))

/-! ## Switch states (`get_individual_switch_states` lines 860-877,
`get_switch_states` lines 879-903, `get_trafo3w_switch_states`
lines 905-925) -/

/-- One row of the pandapower `switch` table (the columns used here). -/
structure SwitchRow where
  et : String
  element : Int
  bus : Int
  closed : Bool
deriving DecidableEq

/-- Lines 896-898 / 916-918: filter the switch table to one element kind
and keep the `element`, `bus`, `closed` columns. -/
def filterSwitches (sw : List SwitchRow) (elementType : String) :
    List SwitchRow :=
  sw.filter (fun s => s.et == elementType)

/-- The switch rows the left join pairs with one component row
`(index, bus value)`: those with `element == index` and matching `bus`. -/
def matchingSwitches (sw : List SwitchRow) (c : Int × Int) : List SwitchRow :=
  sw.filter (fun s => s.element == c.1 && s.bus == c.2)

/-- The `closed` column of `component[["index", bus]].merge(switches,
how="left", left_on=["index", bus], right_on=["element", "bus"])
.fillna(True)`: per component row, one merged row per matching switch row
(in switch-table order), or a single `NaN`-filled-to-`True` row when there
is no match. -/
def mergeClosed : List (Int × Int) → List SwitchRow → List Bool
  | [], _ => []
  | c :: rest, sw =>
    (match matchingSwitches sw c with
     | [] => [true]
     | ms => ms.map (fun s => s.closed)) ++ mergeClosed rest sw

/-- `get_individual_switch_states(component, switches, bus)`.  The final
`.set_index(component.index)` requires one merged row per component row;
pandas raises a length-mismatch `ValueError` otherwise. -/
def get_individual_switch_states (comp : List (Int × Int))
    (sw : List SwitchRow) : Except String (List Bool) :=
  let merged := mergeClosed comp sw
  if merged.length = comp.length then .ok merged
  else .error "ValueError: Length mismatch"

/-- `get_switch_states(pp_table)`: element kind "l" for lines (terminals
`from_bus`, `to_bus`), "t" otherwise (terminals `hv_bus`, `lv_bus`).
`comp1`/`comp2` are the `(index, terminal bus)` pairs of the device table
for the two terminals. -/
def get_switch_states (ppTable : String) (comp1 comp2 : List (Int × Int))
    (sw : List SwitchRow) : Except String (List Bool × List Bool) :=
  let elementType := if ppTable = "line" then "l" else "t"
  let psw := filterSwitches sw elementType
  match get_individual_switch_states comp1 psw,
      get_individual_switch_states comp2 psw with
  | .ok a, .ok b => .ok (a, b)
  | .error e, _ => .error e
  | _, .error e => .error e

/-- `get_trafo3w_switch_states(component)`: element kind "t3", one join per
terminal (`hv_bus`, `mv_bus`, `lv_bus`) against the same filtered switch
table. -/
def get_trafo3w_switch_states (comp1 comp2 comp3 : List (Int × Int))
    (sw : List SwitchRow) :
    Except String (List Bool × List Bool × List Bool) :=
  let psw := filterSwitches sw "t3"
  match get_individual_switch_states comp1 psw,
      get_individual_switch_states comp2 psw,
      get_individual_switch_states comp3 psw with
  | .ok a, .ok b, .ok c => .ok (a, b, c)
  | .error e, _, _ => .error e
  | _, .error e, _ => .error e
  | _, _, .error e => .error e

/-! ## Node power accumulation (`_pp_buses_output__accumulate_power`,
lines 452-502)

The accumulator is parametrised by `ppOf`, the pgm-node-id to pp-bus-index
map realised by `_get_pp_ids("bus", ...)` on the registry. -/

/-- One zipped row of `component_data` (line 479-486): the input-side
terminal node id and the output-side terminal powers `p`, `q`. -/
abbrev SRow : Type := Int × ℚ × ℚ

/-- `component_data.groupby(node_col).sum()[p_col]` at one group key: the
active-power sum of the rows of terminal node `n`. -/
def groupSumP (rows : List SRow) (n : Int) : ℚ :=
  ((rows.filter (fun r => r.1 == n)).map (fun r => r.2.1)).sum

/-- `component_data.groupby(node_col).sum()[q_col]` at one group key. -/
def groupSumQ (rows : List SRow) (n : Int) : ℚ :=
  ((rows.filter (fun r => r.1 == n)).map (fun r => r.2.2)).sum

/-- The group keys of `component_data.groupby(node_col)`: the distinct
terminal node ids.  (pandas sorts the keys; the key order is irrelevant
here because the accumulated totals are keyed additions.) -/
def groupNodes (rows : List SRow) : List Int :=
  (rows.map (fun r => r.1)).dedup

/-- The active-power increment one side contributes to pp bus `b`:
`accumulated_data[p_col]` after re-indexing by `_get_pp_ids("bus", ...)`,
added at the intersection with the bus table index (lines 488-498).  A bus
outside the mapped node set gets no contribution. -/
def incP (ppOf : Int → Int) (rows : List SRow) (b : Int) : ℚ :=
  (((groupNodes rows).filter (fun n => ppOf n == b)).map (groupSumP rows)).sum

/-- The reactive-power increment one side contributes to pp bus `b`. -/
def incQ (ppOf : Int → Int) (rows : List SRow) (b : Int) : ℚ :=
  (((groupNodes rows).filter (fun n => ppOf n == b)).map (groupSumQ rows)).sum

/-- `pp_output_buses.loc[idx, "p_mw"] += ...` and `"q_mvar"` for one
`(node_col, p_col, q_col)` side (lines 477-498). -/
def sideStep (ppOf : Int → Int) (rows : List SRow)
    (totals : List (Int × ℚ × ℚ)) : List (Int × ℚ × ℚ) :=
  totals.map (fun t =>
    (t.1, t.2.1 + incP ppOf rows t.1, t.2.2 + incQ ppOf rows t.1))

/-- The data of one device family (line, link, transformer,
three_winding_transformer) as seen by the accumulator: `output` is `none`
when the family is absent from `pgm_output_data`, else the zipped
`component_data` rows of each side; `hasInput` records membership in
`pgm_data`. -/
structure FamData where
  output : Option (List (List SRow))
  hasInput : Bool

/-- One iteration of the accumulation loop (lines 470-498): skip a family
absent from the result data or of size 0, raise `KeyError` when the family
has result data but no input data, otherwise add each side's grouped sums
into the bus totals. -/
def famStep (ppOf : Int → Int) (totals : List (Int × ℚ × ℚ)) (fd : FamData) :
    Except String (List (Int × ℚ × ℚ)) :=
  match fd.output with
  | none => .ok totals
  | some sides =>
    if sides.all (fun rows => rows.isEmpty) then .ok totals
    else if fd.hasInput then
      .ok (sides.foldl (fun t rows => sideStep ppOf rows t) totals)
    else .error "KeyError: PGM input_data is needed to accumulate output"

/-- `_pp_buses_output__accumulate_power`: start all bus totals at zero,
loop over the device families, and apply the `1e-6` unit conversion once at
the end (lines 465-502). -/
def accumulatePower (ppOf : Int → Int) (busIdx : List Int)
    (fams : List FamData) : Except String (List (Int × ℚ × ℚ)) :=
  (fams.foldlM (famStep ppOf) (busIdx.map (fun b => (b, 0, 0)))).map
    (fun totals => totals.map (fun t => (t.1, t.2.1 / 1000000, t.2.2 / 1000000)))

/-- The claim's description of one family's active-power contribution to pp
bus `b`: the family's per-terminal powers summed over the rows whose mapped
terminal node is `b` (zero for a family absent from the result data). -/
def famTotalP (ppOf : Int → Int) (b : Int) (fd : FamData) : ℚ :=
  match fd.output with
  | none => 0
  | some sides =>
    (sides.map (fun rows =>
      ((rows.filter (fun r => ppOf r.1 == b)).map (fun r => r.2.1)).sum)).sum

/-- The claim's description of one family's reactive-power contribution. -/
def famTotalQ (ppOf : Int → Int) (b : Int) (fd : FamData) : ℚ :=
  match fd.output with
  | none => 0
  | some sides =>
    (sides.map (fun rows =>
      ((rows.filter (fun r => ppOf r.1 == b)).map (fun r => r.2.2)).sum)).sum

/-! ## Attribute resolution (`_get_pp_attr`, lines 980-1005) -/

/-- A value held in a pandas column or a std-type definition: a number or a
string (such as a type name). -/
inductive PPVal where
  | num (x : ℚ)
  | str (s : String)
deriving DecidableEq

/-- A source table: its named columns.  `assocFind cols a` is
`a in pp_component_data` / `pp_component_data[a]`. -/
structure PPTable where
  cols : List (String × List PPVal)

/-- The std-types library: table name -> type name -> attribute -> value. -/
abbrev StdLib : Type := List (String × List (String × List (String × PPVal)))

/-- The result of `_get_pp_attr`: a per-row Series or a broadcastable
scalar default. -/
inductive AttrResult where
  | col (vals : List PPVal)
  | scalar (d : ℚ)
deriving DecidableEq

/-- The inner `get_std_value` closure (lines 991-998) applied to one row's
`std_type` cell: look the type name up in the library (an unknown name
raises `KeyError` from the dict access), then the attribute inside the type
definition, falling back to `default` when given, else raising
`KeyError`. -/
def getStdValue (stds : List (String × List (String × PPVal)))
    (attr : String) (default : Option ℚ) (v : PPVal) :
    Except String PPVal :=
  match v with
  | .str nm =>
    match assocFind stds nm with
    | none => .error "KeyError: unknown std_type"
    | some attrs =>
      match assocFind attrs attr with
      | some w => .ok w
      | none =>
        match default with
        | some d => .ok (.num d)
        | none => .error "KeyError: No attribute value for std_type"
  | .num _ => .error "KeyError: unknown std_type"

/-- `pp_component_data["std_type"].apply(get_std_value)` (line 1000):
row-wise application, propagating the first raised exception. -/
def resolveRows (stds : List (String × List (String × PPVal)))
    (attr : String) (default : Option ℚ) :
    List PPVal → Except String (List PPVal)
  | [] => .ok []
  | v :: rest =>
    match getStdValue stds attr default v with
    | .error e => .error e
    | .ok w =>
      match resolveRows stds attr default rest with
      | .error e => .error e
      | .ok ws => .ok (w :: ws)

/-- `_get_pp_attr(table, attribute, default)`: (1) the table's own column
verbatim; (2) else the per-row std-type lookup when the library covers the
table and the table has a `std_type` column; (3) else the scalar default
when given; (4) else `KeyError`. -/
def get_pp_attr (stdTypes : StdLib) (table : String) (tbl : PPTable)
    (attr : String) (default : Option ℚ) : Except String AttrResult :=
  match assocFind tbl.cols attr with
  | some vs => .ok (.col vs)
  | none =>
    match assocFind stdTypes table, assocFind tbl.cols "std_type" with
    | some stds, some stcol =>
      match resolveRows stds attr default stcol with
      | .error e => .error e
      | .ok ws => .ok (.col ws)
    | _, _ =>
      match default with
      | some d => .ok (.scalar d)
      | none => .error "KeyError: No attribute value"

/-- The claim's description of the per-row type-library value: the
attribute inside the row's named type definition, falling back to the
given default when the type lacks the attribute; undefined (`none`) for an
unknown or non-string type name, or for a missing attribute with no
default. -/
def specAttrRowValue (stds : List (String × List (String × PPVal)))
    (attr : String) (default : Option ℚ) (v : PPVal) : Option PPVal :=
  match v with
  | .str nm =>
    match assocFind stds nm with
    | some attrs =>
      match assocFind attrs attr with
      | some w => some w
      | none => default.map PPVal.num
    | none => none
  | .num _ => none

/-- Forget an exception's message. -/
def exceptToOption {ε α : Type} : Except ε α → Option α
  | .ok a => some a
  | .error _ => none

/-! ## Vector group parsing (`CONNECTION_PATTERN_PP` line 24,
`get_trafo_winding_types` lines 927-951) -/

/-- Modelled from the spec: the winding connection enumeration produced by
`get_winding` (imported from `power_grid_model_io.functions`, which is not
part of this source snapshot): star / delta / zig-zag, each with or without
neutral. -/
inductive Winding where
  | star
  | star_n
  | delta
  | zigzag
  | zigzag_n
deriving DecidableEq

/-- Modelled from the spec: `get_winding` on one matched letter group of
the vector-group code (uppercase letters name the higher-voltage winding,
lowercase the lower-voltage winding; both name the same connections). -/
def get_winding : List Char → Option Winding
  | ['Y'] => some .star
  | ['Y', 'N'] => some .star_n
  | ['D'] => some .delta
  | ['Z'] => some .zigzag
  | ['Z', 'N'] => some .zigzag_n
  | ['y'] => some .star
  | ['y', 'n'] => some .star_n
  | ['d'] => some .delta
  | ['z'] => some .zigzag
  | ['z', 'n'] => some .zigzag_n
  | _ => none

/-- The first alternation group of `CONNECTION_PATTERN_PP`,
`(Y|YN|D|Z|ZN)`, alternatives in pattern order. -/
def uppers : List (List Char) := [['Y'], ['Y', 'N'], ['D'], ['Z'], ['Z', 'N']]

/-- The second alternation group, `(y|yn|d|z|zn)`. -/
def lowers : List (List Char) := [['y'], ['y', 'n'], ['d'], ['z'], ['z', 'n']]

/-- Consume a literal alternative off the front of the input, as the regex
engine does. -/
def dropLead : List Char → List Char → Option (List Char)
  | [], s => some s
  | _ :: _, [] => none
  | a :: as, b :: bs => if a = b then dropLead as bs else none

/-- Try one assignment of the two alternation groups: both literals must be
consumed, and (because `fullmatch` anchors the pattern and `\d*` must reach
the end of the string) the remainder must be all digits. -/
def tryPair (s g1 g2 : List Char) : Option (List Char × List Char) :=
  match dropLead g1 s with
  | none => none
  | some r1 =>
    match dropLead g2 r1 with
    | none => none
    | some r2 => if r2.all Char.isDigit then some (g1, g2) else none

/-- `CONNECTION_PATTERN_PP.fullmatch(vector_group)`: the backtracking
engine tries the first group's alternatives in pattern order and, within
each, the second group's alternatives in pattern order; the first
assignment whose remainder is all digits wins, its two captured groups are
returned. -/
def fullmatchPP (s : List Char) : Option (List Char × List Char) :=
  (uppers.flatMap (fun g1 => lowers.map (fun g2 => (g1, g2)))).findSome?
    (fun p => tryPair s p.1 p.2)

/-- The inner `vector_group_to_winding_types` of `get_trafo_winding_types`
(lines 932-939): parse the code, raising for a string the pattern does not
fully match.  (`lru_cache` memoisation of a pure function is semantically
transparent and not modelled.) -/
def vector_group_to_winding_types (s : List Char) :
    Except String (Winding × Winding) :=
  match fullmatchPP s with
  | none => .error "Invalid transformer connection string"
  | some (g1, g2) =>
    match get_winding g1, get_winding g2 with
    | some w1, some w2 => .ok (w1, w2)
    | _, _ => .error "matched group is not a winding code"

/-! # Theorems -/

/-- Success analysis of `_generate_ids`: the returned ids are the
consecutive block starting at the current counter, the counter advances by
the number of source indices, and the reverse lookup gains the new group. -/
theorem generateIds_ok (s : RegState) (table : String) (ppIdx : List Int)
    (name : Option String) (ids : List Nat) (s₁ : RegState)
    (h : generateIds s table ppIdx name = .ok (ids, s₁)) :
    ids = List.range' s.next_idx ppIdx.length ∧
    s₁.next_idx = s.next_idx + ppIdx.length ∧
    s₁.idx_lookup = (PPKey.pair table name, ids.zip ppIdx) :: s.idx_lookup := by
  unfold generateIds at h
  by_cases hk : (assocFind s.idx_lookup (PPKey.pair table name)).isSome
  · simp [hk] at h
  · simp only [hk, Bool.false_eq_true, if_false, Except.ok.injEq, Prod.mk.injEq] at h
    obtain ⟨h1, h2⟩ := h
    subst h1; subst h2
    refine ⟨(List.range'_eq_map_range _ _).symm ▸ rfl, rfl, rfl⟩

/-- `_generate_ids` followed by `_get_pp_ids` on the returned ids recovers
the original source indices in order (claim C3). -/
theorem registry_allocate_to_source_roundtrip (s : RegState) (table : String)
    (name : Option String) (ppIdx : List Int) (_hne : ppIdx ≠ [])
    (hfresh : assocFind s.idx_lookup (PPKey.pair table name) = none) :
    ∃ ids s₁, generateIds s table ppIdx name = .ok (ids, s₁) ∧
      getPpIds s₁ table ids name = .ok ppIdx := by
  have hgen : generateIds s table ppIdx name =
      .ok ((List.range ppIdx.length).map (fun i => s.next_idx + i),
        { idx := (PPKey.pair table name,
            ppIdx.zip ((List.range ppIdx.length).map (fun i => s.next_idx + i))) :: s.idx,
          idx_lookup := (PPKey.pair table name,
            ((List.range ppIdx.length).map (fun i => s.next_idx + i)).zip ppIdx) :: s.idx_lookup,
          next_idx := s.next_idx + ppIdx.length }) := by
    simp [generateIds, hfresh]
  refine ⟨_, _, hgen, ?_⟩
  have hlen : ((List.range ppIdx.length).map (fun i => s.next_idx + i)).length
      = ppIdx.length := by simp
  unfold getPpIds
  have hfind : assocFind
      ((PPKey.pair table name,
        ((List.range ppIdx.length).map (fun i => s.next_idx + i)).zip ppIdx) :: s.idx_lookup)
      (PPKey.pair table name)
      = some (((List.range ppIdx.length).map (fun i => s.next_idx + i)).zip ppIdx) := by
    simp [assocFind]
  rw [hfind]
  have hfst : ((((List.range ppIdx.length).map (fun i => s.next_idx + i)).zip ppIdx).map
      Prod.fst) = (List.range ppIdx.length).map (fun i => s.next_idx + i) :=
    List.map_fst_zip _ _ (le_of_eq hlen)
  simp only [hfst, if_pos rfl]
  rw [List.map_snd_zip _ _ (le_of_eq hlen.symm)]
  simp

/-- Witness for the round-trip theorem at a concrete input. -/
theorem registry_allocate_to_source_roundtrip_witness :
    ∃ ids s₁, generateIds regInit "bus" [7, 3] none = .ok (ids, s₁) ∧
      getPpIds s₁ "bus" ids none = .ok [7, 3] :=
  registry_allocate_to_source_roundtrip regInit "bus" none [7, 3]
    (by decide) (by decide)

/-- Any successful sequence of allocations assigns the consecutive block of
ids starting at the incoming counter value, and advances the counter by the
total number of source indices. -/
theorem runAllocs_flatten (reqs : List AllocReq) :
    ∀ (s : RegState) (idss : List (List Nat)) (s' : RegState),
      runAllocs s reqs = .ok (idss, s') →
      idss.flatten = List.range' s.next_idx ((reqs.map (fun r => r.ppIdx.length)).sum) ∧
      s'.next_idx = s.next_idx + (reqs.map (fun r => r.ppIdx.length)).sum := by
  induction reqs with
  | nil =>
    intro s idss s' h
    simp only [runAllocs, Except.ok.injEq, Prod.mk.injEq] at h
    obtain ⟨h1, h2⟩ := h
    subst h1; subst h2
    simp [List.range']
  | cons r rest ih =>
    intro s idss s' h
    unfold runAllocs at h
    cases hg : generateIds s r.table r.ppIdx r.name with
    | error e => rw [hg] at h; simp at h
    | ok p =>
      obtain ⟨ids, s₁⟩ := p
      rw [hg] at h
      dsimp only at h
      cases hr : runAllocs s₁ rest with
      | error e => rw [hr] at h; simp at h
      | ok q =>
        obtain ⟨idss₁, s₂⟩ := q
        rw [hr] at h
        simp only [Except.ok.injEq, Prod.mk.injEq] at h
        obtain ⟨h1, h2⟩ := h
        subst h1; subst h2
        obtain ⟨hids, hnext, _⟩ := generateIds_ok s r.table r.ppIdx r.name ids s₁ hg
        obtain ⟨hflat, hnext'⟩ := ih s₁ idss₁ s₂ hr
        subst hids
        constructor
        · simp only [List.flatten_cons, hflat, hnext]
          rw [List.range'_append_1]
          simp [Nat.add_comm]
        · rw [hnext', hnext]
          simp [List.map_cons, List.sum_cons, Nat.add_assoc]

/-- Claim C4: within one pass (started by the `_parse_data` reset), the ids
assigned over any successful sequence of allocations are exactly
`0, 1, ..., total-1` in allocation order: globally unique, contiguous from
0, and strictly increasing. -/
theorem pass_ids_contiguous_from_zero (s₀ : RegState) (reqs : List AllocReq)
    (idss : List (List Nat)) (s' : RegState)
    (h : runAllocs (resetPass s₀) reqs = .ok (idss, s')) :
    idss.flatten = List.range ((reqs.map (fun r => r.ppIdx.length)).sum) ∧
    idss.flatten.Nodup ∧
    idss.flatten.Pairwise (· < ·) := by
  obtain ⟨hflat, _⟩ := runAllocs_flatten reqs (resetPass s₀) idss s' h
  have h0 : (resetPass s₀).next_idx = 0 := rfl
  rw [h0] at hflat
  rw [← List.range_eq_range'] at hflat
  exact ⟨hflat, hflat ▸ List.nodup_range _, hflat ▸ List.pairwise_lt_range _⟩

/-- Witness for the contiguity theorem: two families ("bus", then the
"load"/"const_power" group) allocated in one pass get ids `[0,1]` and
`[2]`. -/
theorem pass_ids_contiguous_from_zero_witness :
    List.flatten [[0, 1], [2]] = List.range 3 ∧
    (List.flatten [[0, 1], [2]]).Nodup ∧
    (List.flatten [[0, 1], [2]]).Pairwise (· < ·) :=
  pass_ids_contiguous_from_zero regInit
    [⟨"bus", none, [10, 11]⟩, ⟨"load", some "const_power", [10]⟩]
    [[0, 1], [2]]
    ⟨[(.pair "load" (some "const_power"), [(10, 2)]),
      (.pair "bus" none, [(10, 0), (11, 1)])],
     [(.pair "load" (some "const_power"), [(2, 10)]),
      (.pair "bus" none, [(0, 10), (1, 11)])], 3⟩
    (by decide)

/-- Claim C2 fails on the code: a forward pass allocates pgm id 0 for pp bus
index 5 and records the sidecar; the original registry's reverse lookup
returns `[5]`, but the registry rebuilt from that very sidecar stores its
groups under the bare table string (not the `(table, name)` tuple key used
everywhere else), so the same reverse lookup raises `KeyError`. -/
theorem sidecar_rebuild_breaks_reverse_lookup :
    generateIds regInit "bus" [5] none
      = .ok ([0], ⟨[(.pair "bus" none, [(5, 0)])],
                   [(.pair "bus" none, [(0, 5)])], 1⟩) ∧
    getPpIds ⟨[(.pair "bus" none, [(5, 0)])],
              [(.pair "bus" none, [(0, 5)])], 1⟩ "bus" [0] none = .ok [5] ∧
    getPpIds (extraInfoToIdxLookup (buildExtraInfo [(.pair "bus" none, [(0, 5)])]))
        "bus" [0] none
      = .error "KeyError: No indexes have been created" := by
  decide

/-- Claim C1 fails on the code: for the load row with `p_mw = 1`,
`q_mvar = 1`, `const_i_percent = 100`, `const_z_percent = 0` and
`scaling = 0.5`, the three generated active powers sum to 750000 W while
`p_mw * scaling * 1e6 = 500000` W (and likewise for reactive power): the
constant-current and constant-impedance multipliers already contain the
scaling factor, and `const_p_multiplier` subtracts those scaled multipliers
from the unscaled 1e6 before scaling again. -/
theorem load_split_total_power_bug :
    let r : LoadRow := ⟨1, 1, 100, 0, 1/2⟩
    p_const_power r + p_const_impedance r + p_const_current r = 750000 ∧
    q_const_power r + q_const_impedance r + q_const_current r = 750000 ∧
    r.p_mw * r.scaling * 1000000 = 500000 ∧
    r.q_mvar * r.scaling * 1000000 = 500000 ∧
    (750000 : ℚ) ≠ 500000 := by
  refine ⟨?_, ?_, ?_, ?_, ?_⟩ <;>
    norm_num [p_const_power, p_const_impedance, p_const_current,
      q_const_power, q_const_impedance, q_const_current,
      const_p_multiplier, const_i_multiplier, const_z_multiplier]

/-- Positional characterisation of `_get_tap_size`. -/
theorem getTapSizeFrom_getElem (junk : Nat → ℚ) (rows : List TrafoRow) :
    ∀ (k i : Nat),
      (getTapSizeFrom junk k rows)[i]? =
        (rows[i]?).map (fun r => tapSizeRow (junk (k + i)) r) := by
  induction rows with
  | nil => intro k i; simp [getTapSizeFrom]
  | cons r rest ih =>
    intro k i
    cases i with
    | zero => simp [getTapSizeFrom]
    | succ j =>
      simp only [getTapSizeFrom, List.getElem?_cons_succ, ih (k + 1) j]
      have : k + 1 + j = k + (j + 1) := by omega
      rw [this]

/-- Positional characterisation of `_get_3wtransformer_tap_size`. -/
theorem getTapSize3wFrom_getElem (junk : Nat → ℚ) (rows : List Trafo3wRow) :
    ∀ (k i : Nat),
      (getTapSize3wFrom junk k rows)[i]? =
        (rows[i]?).map (fun r => tapSizeRow3w (junk (k + i)) r) := by
  induction rows with
  | nil => intro k i; simp [getTapSize3wFrom]
  | cons r rest ih =>
    intro k i
    cases i with
    | zero => simp [getTapSize3wFrom]
    | succ j =>
      simp only [getTapSize3wFrom, List.getElem?_cons_succ, ih (k + 1) j]
      have : k + 1 + j = k + (j + 1) := by omega
      rw [this]

/-- Claim C9: every transformer row whose `tap_side` column selects a valid
terminal gets tap size `tap_step_percent * 1e-2 * (nominal voltage of that
side in volts)`: two-winding rows use `vn_hv_kv * 1e3` for "hv" and
`vn_lv_kv * 1e3` for "lv"; three-winding rows additionally use
`vn_mv_kv * 1e3` for "mv". -/
theorem tap_size_uses_tap_side_nominal_voltage :
    (∀ (junk : Nat → ℚ) (rows : List TrafoRow) (i : Nat) (r : TrafoRow),
      rows[i]? = some r →
        (r.tap_side = "hv" → (get_tap_size junk rows)[i]? =
          some (r.tap_step_percent * (1/100) * (r.vn_hv_kv * 1000))) ∧
        (r.tap_side = "lv" → (get_tap_size junk rows)[i]? =
          some (r.tap_step_percent * (1/100) * (r.vn_lv_kv * 1000)))) ∧
    (∀ (junk : Nat → ℚ) (rows : List Trafo3wRow) (i : Nat) (r : Trafo3wRow),
      rows[i]? = some r →
        (r.tap_side = "hv" → (get_3wtransformer_tap_size junk rows)[i]? =
          some (r.tap_step_percent * (1/100) * (r.vn_hv_kv * 1000))) ∧
        (r.tap_side = "mv" → (get_3wtransformer_tap_size junk rows)[i]? =
          some (r.tap_step_percent * (1/100) * (r.vn_mv_kv * 1000))) ∧
        (r.tap_side = "lv" → (get_3wtransformer_tap_size junk rows)[i]? =
          some (r.tap_step_percent * (1/100) * (r.vn_lv_kv * 1000)))) := by
  constructor
  · intro junk rows i r hr
    have hpt := getTapSizeFrom_getElem junk rows 0 i
    rw [hr] at hpt
    refine ⟨fun hside => ?_, fun hside => ?_⟩ <;>
        rw [get_tap_size, hpt, Option.map_some']
    · rw [tapSizeRow, if_pos hside]
      congr 1
      ring
    · rw [tapSizeRow, if_neg (by rw [hside]; decide), if_pos hside]
      congr 1
      ring
  · intro junk rows i r hr
    have hpt := getTapSize3wFrom_getElem junk rows 0 i
    rw [hr] at hpt
    refine ⟨fun hside => ?_, fun hside => ?_, fun hside => ?_⟩ <;>
        rw [get_3wtransformer_tap_size, hpt, Option.map_some']
    · rw [tapSizeRow3w, if_pos hside]
      congr 1
      ring
    · rw [tapSizeRow3w, if_neg (by rw [hside]; decide), if_pos hside]
      congr 1
      ring
    · rw [tapSizeRow3w, if_neg (by rw [hside]; decide),
        if_neg (by rw [hside]; decide), if_pos hside]
      congr 1
      ring

/-- Witness for the tap size theorem: a two-winding row tapped at "hv" and
a three-winding row tapped at "mv", at concrete values. -/
theorem tap_size_uses_tap_side_nominal_voltage_witness :
    (get_tap_size (fun _ => 0) [⟨"hv", 2, 110, 10⟩])[0]? =
      some ((2 : ℚ) * (1/100) * (110 * 1000)) ∧
    (get_3wtransformer_tap_size (fun _ => 0) [⟨"mv", 3, 110, 50, 10⟩])[0]? =
      some ((3 : ℚ) * (1/100) * (50 * 1000)) :=
  ⟨(tap_size_uses_tap_side_nominal_voltage.1 (fun _ => 0)
      [⟨"hv", 2, 110, 10⟩] 0 ⟨"hv", 2, 110, 10⟩ rfl).1 rfl,
   (tap_size_uses_tap_side_nominal_voltage.2 (fun _ => 0)
      [⟨"mv", 3, 110, 50, 10⟩] 0 ⟨"mv", 3, 110, 50, 10⟩ rfl).2.1 rfl⟩

/-- Claim C10: in `_pp_trafos3w_output` the `ql_mvar` column is
`(p_1 + p_2 + p_3) * 1e-6` for every result row — the sum of the three
active-power legs (identical to `pl_mw`), not of the reactive-power legs
`q_1`, `q_2`, `q_3`: on a row with zero active and non-zero reactive legs
the column is 0 while the reactive-leg sum is not. -/
theorem trafos3w_ql_mvar_sums_active_power_legs :
    (∀ (rows : List Trafo3wRes) (i : Nat) (r : Trafo3wRes),
      rows[i]? = some r →
        (trafos3w_ql_mvar rows)[i]? =
          some ((r.p_1 + r.p_2 + r.p_3) * (1/1000000)) ∧
        (trafos3w_ql_mvar rows)[i]? = (trafos3w_pl_mw rows)[i]?) ∧
    trafos3w_ql_mvar [⟨0, 0, 0, 1, 1, 1⟩] = [0] ∧
    trafos3w_ql_mvar [⟨0, 0, 0, 1, 1, 1⟩] ≠ [((1 : ℚ) + 1 + 1) * (1/1000000)] := by
  refine ⟨?_, ?_, ?_⟩
  · intro rows i r hr
    constructor
    · simp [trafos3w_ql_mvar, hr]
    · simp [trafos3w_ql_mvar, trafos3w_pl_mw]
  · simp [trafos3w_ql_mvar]
  · intro h
    simp only [trafos3w_ql_mvar, List.map_cons, List.map_nil] at h
    norm_num at h

/-- Witness for the `ql_mvar` theorem at a concrete result row. -/
theorem trafos3w_ql_mvar_sums_active_power_legs_witness :
    (trafos3w_ql_mvar [⟨1, 2, 3, 4, 5, 6⟩])[0]? =
      some (((1 : ℚ) + 2 + 3) * (1/1000000)) :=
  ((trafos3w_ql_mvar_sums_active_power_legs.1 [⟨1, 2, 3, 4, 5, 6⟩] 0
    ⟨1, 2, 3, 4, 5, 6⟩ rfl).1)

/-- When every component row has at most one matching switch row, the
left-join result is exactly one state per component row: the matching row's
`closed`, or `True` when there is none. -/
theorem mergeClosed_eq_map (fsw : List SwitchRow) :
    ∀ (comp : List (Int × Int)),
      (∀ c ∈ comp, (matchingSwitches fsw c).length ≤ 1) →
      mergeClosed comp fsw = comp.map (fun c =>
        match matchingSwitches fsw c with
        | [] => true
        | s :: _ => s.closed) := by
  intro comp
  induction comp with
  | nil => intro _; rfl
  | cons c rest ih =>
    intro huniq
    have hc := huniq c (by simp)
    have hrest := fun c' hc' => huniq c' (List.mem_cons_of_mem _ hc')
    cases hm : matchingSwitches fsw c with
    | nil =>
      simp only [mergeClosed, hm, List.map_cons, ih hrest]
      rfl
    | cons s ms =>
      cases ms with
      | nil =>
        simp only [mergeClosed, hm, List.map_cons, ih hrest]
        rfl
      | cons s' ms' => rw [hm] at hc; simp at hc

/-- Claim C5: for a device table's terminal (component rows `(index, bus)`)
joined against the switch table filtered to element kind `et`, the terminal
resolution succeeds whenever each row has at most one matching switch row,
and each resolved state is `True` when no filtered switch row matches
`(element, bus) = (index, bus)`, and is exactly the matching row's `closed`
flag when one does. -/
theorem switch_terminal_state_resolution (sw : List SwitchRow) (et : String)
    (comp : List (Int × Int))
    (huniq : ∀ c ∈ comp, (matchingSwitches (filterSwitches sw et) c).length ≤ 1) :
    ∃ states,
      get_individual_switch_states comp (filterSwitches sw et) = .ok states ∧
      ∀ (i : Nat) (c : Int × Int), comp[i]? = some c →
        (matchingSwitches (filterSwitches sw et) c = [] →
          states[i]? = some true) ∧
        (∀ s, matchingSwitches (filterSwitches sw et) c = [s] →
          states[i]? = some s.closed) := by
  have hmap := mergeClosed_eq_map (filterSwitches sw et) comp huniq
  refine ⟨mergeClosed comp (filterSwitches sw et), ?_, ?_⟩
  · rw [get_individual_switch_states, if_pos (by rw [hmap]; simp)]
  · intro i c hic
    constructor
    · intro hnone
      rw [hmap, List.getElem?_map, hic, Option.map_some']
      rw [hnone]
    · intro s hone
      rw [hmap, List.getElem?_map, hic, Option.map_some']
      rw [hone]

/-- Witness for the switch-state theorem: a line terminal with a matching
open switch resolves to that switch's `closed = False`, and a terminal with
no matching switch resolves to `True`. -/
theorem switch_terminal_state_resolution_witness :
    ∃ states,
      get_individual_switch_states [(7, 3), (8, 4)]
        (filterSwitches [⟨"l", 7, 3, false⟩, ⟨"t", 7, 3, true⟩] "l")
        = .ok states ∧
      states[0]? = some false ∧ states[1]? = some true := by
  obtain ⟨states, hok, hpt⟩ :=
    switch_terminal_state_resolution [⟨"l", 7, 3, false⟩, ⟨"t", 7, 3, true⟩]
      "l" [(7, 3), (8, 4)] (by decide)
  refine ⟨states, hok, ?_, ?_⟩
  · exact (hpt 0 (7, 3) rfl).2 ⟨"l", 7, 3, false⟩ (by decide)
  · exact (hpt 1 (8, 4) rfl).1 (by decide)

/-- Summing a pointwise sum of two functions over a list splits into two
sums. -/
theorem sum_map_add_q {α : Type} (l : List α) (f g : α → ℚ) :
    (l.map (fun x => f x + g x)).sum = (l.map f).sum + (l.map g).sum := by
  induction l with
  | nil => simp
  | cons a l ih => simp only [List.map_cons, List.sum_cons, ih]; ring

/-- A sum of indicator terms over a list not containing the key is zero. -/
theorem sum_if_not_mem {κ : Type} [DecidableEq κ] (v : ℚ) (k₀ : κ) :
    ∀ (ks : List κ), k₀ ∉ ks →
      (ks.map (fun k => if k₀ = k then v else 0)).sum = 0 := by
  intro ks
  induction ks with
  | nil => intro _; simp
  | cons k ks ih =>
    intro hk
    have h1 : k₀ ≠ k := fun h => hk (h ▸ List.mem_cons_self k ks)
    have h2 : k₀ ∉ ks := fun h => hk (List.mem_cons_of_mem _ h)
    simp only [List.map_cons, List.sum_cons, if_neg h1, ih h2, add_zero]

/-- A sum of indicator terms over a duplicate-free list containing the key
is the indicated value. -/
theorem sum_if_single {κ : Type} [DecidableEq κ] (v : ℚ) (k₀ : κ) :
    ∀ (ks : List κ), ks.Nodup → k₀ ∈ ks →
      (ks.map (fun k => if k₀ = k then v else 0)).sum = v := by
  intro ks
  induction ks with
  | nil => intro _ h; cases h
  | cons k ks ih =>
    intro hnd hk
    rw [List.nodup_cons] at hnd
    simp only [List.map_cons, List.sum_cons]
    by_cases h : k₀ = k
    · rw [if_pos h, sum_if_not_mem v k₀ ks (h ▸ hnd.1), add_zero]
    · have hmem : k₀ ∈ ks := by
        cases List.mem_cons.mp hk with
        | inl h' => exact absurd h' h
        | inr h' => exact h'
      rw [if_neg h, ih hnd.2 hmem, zero_add]

/-- Fiberwise summation: summing, over a duplicate-free key list covering a
list's keys, each key's fiber sum, gives the total sum. -/
theorem sum_fiber {α κ : Type} [DecidableEq κ] (key : α → κ) (f : α → ℚ)
    (ks : List κ) (hnd : ks.Nodup) :
    ∀ (l : List α), (∀ a ∈ l, key a ∈ ks) →
      (ks.map (fun k => ((l.filter (fun a => key a == k)).map f).sum)).sum
        = (l.map f).sum := by
  intro l
  induction l with
  | nil =>
    intro _
    simp
  | cons a l ih =>
    intro hcov
    have hal : ∀ x ∈ l, key x ∈ ks := fun x hx =>
      hcov x (List.mem_cons_of_mem _ hx)
    have hka : key a ∈ ks := hcov a (List.mem_cons_self a l)
    have hsummand : ∀ k ∈ ks,
        (((a :: l).filter (fun x => key x == k)).map f).sum
          = (if key a = k then f a else 0)
            + ((l.filter (fun x => key x == k)).map f).sum := by
      intro k _
      by_cases h : key a = k
      · simp [List.filter_cons, h]
      · simp [List.filter_cons, h]
    rw [List.map_congr_left hsummand, sum_map_add_q,
      sum_if_single (f a) (key a) ks hnd hka, ih hal, List.map_cons,
      List.sum_cons]

/-- The groupby-then-reindex-then-add increment of one side at one bus
equals the direct sum of that side's row powers over the rows whose mapped
node is the bus. -/
theorem incP_eq_filter_sum (ppOf : Int → Int) (rows : List SRow) (b : Int) :
    incP ppOf rows b
      = ((rows.filter (fun r => ppOf r.1 == b)).map (fun r => r.2.1)).sum := by
  have hnd : ((groupNodes rows).filter (fun n => ppOf n == b)).Nodup :=
    (List.nodup_dedup _).filter _
  have hcov : ∀ r ∈ rows.filter (fun r => ppOf r.1 == b),
      r.1 ∈ (groupNodes rows).filter (fun n => ppOf n == b) := by
    intro r hr
    rw [List.mem_filter] at hr ⊢
    refine ⟨List.mem_dedup.mpr (List.mem_map.mpr ⟨r, hr.1, rfl⟩), hr.2⟩
  have hfib := sum_fiber (fun r : SRow => r.1) (fun r : SRow => r.2.1)
    ((groupNodes rows).filter (fun n => ppOf n == b)) hnd
    (rows.filter (fun r => ppOf r.1 == b)) hcov
  rw [← hfib]
  unfold incP
  congr 1
  apply List.map_congr_left
  intro k hk
  rw [List.mem_filter] at hk
  unfold groupSumP
  congr 1
  rw [List.filter_filter]
  congr 1
  apply List.filter_congr
  intro r _
  by_cases h : r.1 = k
  · simp only [h, beq_self_eq_true, Bool.true_and, Bool.and_true]
    exact hk.2.symm
  · simp [h]

/-- The reactive counterpart of `incP_eq_filter_sum`. -/
theorem incQ_eq_filter_sum (ppOf : Int → Int) (rows : List SRow) (b : Int) :
    incQ ppOf rows b
      = ((rows.filter (fun r => ppOf r.1 == b)).map (fun r => r.2.2)).sum := by
  have hnd : ((groupNodes rows).filter (fun n => ppOf n == b)).Nodup :=
    (List.nodup_dedup _).filter _
  have hcov : ∀ r ∈ rows.filter (fun r => ppOf r.1 == b),
      r.1 ∈ (groupNodes rows).filter (fun n => ppOf n == b) := by
    intro r hr
    rw [List.mem_filter] at hr ⊢
    refine ⟨List.mem_dedup.mpr (List.mem_map.mpr ⟨r, hr.1, rfl⟩), hr.2⟩
  have hfib := sum_fiber (fun r : SRow => r.1) (fun r : SRow => r.2.2)
    ((groupNodes rows).filter (fun n => ppOf n == b)) hnd
    (rows.filter (fun r => ppOf r.1 == b)) hcov
  rw [← hfib]
  unfold incQ
  congr 1
  apply List.map_congr_left
  intro k hk
  rw [List.mem_filter] at hk
  unfold groupSumQ
  congr 1
  rw [List.filter_filter]
  congr 1
  apply List.filter_congr
  intro r _
  by_cases h : r.1 = k
  · simp only [h, beq_self_eq_true, Bool.true_and, Bool.and_true]
    exact hk.2.symm
  · simp [h]

/-- Folding the per-side additions over a family's sides adds, per bus, the
sum of the sides' increments. -/
theorem foldl_sideStep (ppOf : Int → Int) (sides : List (List SRow)) :
    ∀ (f g : Int → ℚ) (busIdx : List Int),
      sides.foldl (fun t rows => sideStep ppOf rows t)
          (busIdx.map (fun b => (b, f b, g b)))
        = busIdx.map (fun b =>
            (b, f b + (sides.map (fun rows => incP ppOf rows b)).sum,
                g b + (sides.map (fun rows => incQ ppOf rows b)).sum)) := by
  induction sides with
  | nil =>
    intro f g busIdx
    simp only [List.foldl_nil, List.map_nil, List.sum_nil, add_zero]
  | cons rows rest ih =>
    intro f g busIdx
    rw [List.foldl_cons]
    have hstep : sideStep ppOf rows (busIdx.map (fun b => (b, f b, g b)))
        = busIdx.map (fun b =>
            (b, f b + incP ppOf rows b, g b + incQ ppOf rows b)) := by
      rw [sideStep, List.map_map]
      rfl
    rw [hstep, ih]
    apply List.map_congr_left
    intro b _
    simp only [List.map_cons, List.sum_cons, Prod.mk.injEq, true_and]
    constructor <;> ring

/-- A family whose result rows are all empty contributes nothing. -/
theorem famTotalP_all_empty (ppOf : Int → Int) (b : Int)
    (sides : List (List SRow))
    (hall : sides.all (fun rows => rows.isEmpty) = true) (hi : Bool) :
    famTotalP ppOf b ⟨some sides, hi⟩ = 0 := by
  have hred : famTotalP ppOf b ⟨some sides, hi⟩
      = (sides.map (fun rows =>
          ((rows.filter (fun r => ppOf r.1 == b)).map (fun r => r.2.1)).sum)).sum := rfl
  rw [hred]
  apply List.sum_eq_zero
  intro x hx
  rw [List.mem_map] at hx
  obtain ⟨rows, hrows, hval⟩ := hx
  have hempty := List.all_eq_true.mp hall rows hrows
  rw [List.isEmpty_iff] at hempty
  subst hempty
  simp at hval
  exact hval.symm

/-- The reactive counterpart of `famTotalP_all_empty`. -/
theorem famTotalQ_all_empty (ppOf : Int → Int) (b : Int)
    (sides : List (List SRow))
    (hall : sides.all (fun rows => rows.isEmpty) = true) (hi : Bool) :
    famTotalQ ppOf b ⟨some sides, hi⟩ = 0 := by
  have hred : famTotalQ ppOf b ⟨some sides, hi⟩
      = (sides.map (fun rows =>
          ((rows.filter (fun r => ppOf r.1 == b)).map (fun r => r.2.2)).sum)).sum := rfl
  rw [hred]
  apply List.sum_eq_zero
  intro x hx
  rw [List.mem_map] at hx
  obtain ⟨rows, hrows, hval⟩ := hx
  have hempty := List.all_eq_true.mp hall rows hrows
  rw [List.isEmpty_iff] at hempty
  subst hempty
  simp at hval
  exact hval.symm

/-- A present family's contribution (code form) per bus is the claim's
per-family total. -/
theorem famTotal_sides (ppOf : Int → Int) (b : Int) (sides : List (List SRow))
    (hi : Bool) :
    famTotalP ppOf b ⟨some sides, hi⟩
        = (sides.map (fun rows => incP ppOf rows b)).sum ∧
    famTotalQ ppOf b ⟨some sides, hi⟩
        = (sides.map (fun rows => incQ ppOf rows b)).sum := by
  constructor
  · have hred : famTotalP ppOf b ⟨some sides, hi⟩
        = (sides.map (fun rows =>
            ((rows.filter (fun r => ppOf r.1 == b)).map (fun r => r.2.1)).sum)).sum := rfl
    rw [hred]
    congr 1
    apply List.map_congr_left
    intro rows _
    exact (incP_eq_filter_sum ppOf rows b).symm
  · have hred : famTotalQ ppOf b ⟨some sides, hi⟩
        = (sides.map (fun rows =>
            ((rows.filter (fun r => ppOf r.1 == b)).map (fun r => r.2.2)).sum)).sum := rfl
    rw [hred]
    congr 1
    apply List.map_congr_left
    intro rows _
    exact (incQ_eq_filter_sum ppOf rows b).symm

/-- The accumulation loop over the families computes, per bus, the sum of
the per-family totals (before unit conversion). -/
theorem foldlM_famStep (ppOf : Int → Int) (fams : List FamData)
    (hok : ∀ fd ∈ fams, ∀ sides, fd.output = some sides →
      sides.all (fun rows => rows.isEmpty) = false → fd.hasInput = true) :
    ∀ (f g : Int → ℚ) (busIdx : List Int),
      fams.foldlM (famStep ppOf) (busIdx.map (fun b => (b, f b, g b)))
        = .ok (busIdx.map (fun b =>
            (b, f b + (fams.map (famTotalP ppOf b)).sum,
                g b + (fams.map (famTotalQ ppOf b)).sum))) := by
  induction fams with
  | nil =>
    intro f g busIdx
    simp only [List.foldlM_nil, List.map_nil, List.sum_nil, add_zero]
    rfl
  | cons fd rest ih =>
    intro f g busIdx
    have hfd := hok fd (List.mem_cons_self fd rest)
    have hrest : ∀ fd' ∈ rest, ∀ sides, fd'.output = some sides →
        sides.all (fun rows => rows.isEmpty) = false → fd'.hasInput = true :=
      fun fd' h' => hok fd' (List.mem_cons_of_mem _ h')
    rw [List.foldlM_cons]
    cases hout : fd.output with
    | none =>
      have hstep : famStep ppOf (busIdx.map (fun b => (b, f b, g b))) fd
          = .ok (busIdx.map (fun b => (b, f b, g b))) := by
        unfold famStep
        rw [hout]
      rw [hstep]
      show rest.foldlM (famStep ppOf) (busIdx.map (fun b => (b, f b, g b))) = _
      rw [ih hrest f g busIdx]
      congr 1
      apply List.map_congr_left
      intro b _
      have h0 : famTotalP ppOf b fd = 0 := by unfold famTotalP; rw [hout]
      have h0q : famTotalQ ppOf b fd = 0 := by unfold famTotalQ; rw [hout]
      simp only [List.map_cons, List.sum_cons, h0, h0q, zero_add]
    | some sides =>
      cases hall : sides.all (fun rows => rows.isEmpty) with
      | true =>
        have hstep : famStep ppOf (busIdx.map (fun b => (b, f b, g b))) fd
            = .ok (busIdx.map (fun b => (b, f b, g b))) := by
          unfold famStep
          rw [hout]
          dsimp only
          rw [hall]
          simp
        rw [hstep]
        show rest.foldlM (famStep ppOf) (busIdx.map (fun b => (b, f b, g b))) = _
        rw [ih hrest f g busIdx]
        congr 1
        apply List.map_congr_left
        intro b _
        have hfd' : fd = ⟨some sides, fd.hasInput⟩ := by
          cases fd; simp_all
        rw [hfd']
        rw [List.map_cons, List.sum_cons, List.map_cons, List.sum_cons,
          famTotalP_all_empty ppOf b sides hall fd.hasInput,
          famTotalQ_all_empty ppOf b sides hall fd.hasInput, zero_add,
          zero_add]
      | false =>
        have hin : fd.hasInput = true := hfd sides hout hall
        have hstep : famStep ppOf (busIdx.map (fun b => (b, f b, g b))) fd
            = .ok (sides.foldl (fun t rows => sideStep ppOf rows t)
                (busIdx.map (fun b => (b, f b, g b)))) := by
          unfold famStep
          rw [hout]
          dsimp only
          rw [hall, hin]
          simp
        rw [hstep]
        show rest.foldlM (famStep ppOf)
            (sides.foldl (fun t rows => sideStep ppOf rows t)
              (busIdx.map (fun b => (b, f b, g b)))) = _
        rw [foldl_sideStep ppOf sides f g busIdx]
        rw [ih hrest _ _ busIdx]
        congr 1
        apply List.map_congr_left
        intro b _
        have hfd' : fd = ⟨some sides, fd.hasInput⟩ := by
          cases fd; simp_all
        have hps := famTotal_sides ppOf b sides fd.hasInput
        rw [hfd']
        simp only [List.map_cons, List.sum_cons, Prod.mk.injEq, true_and,
          hps.1, hps.2]
        constructor <;> ring

/-- Claim C6: when every family present and non-empty in the result data
also has input data, the accumulated per-bus totals are exactly the sum of
the present families' per-terminal powers grouped by (mapped) terminal
node, unit-converted once at the end; absent families contribute nothing
and cause no error; and the totals do not depend on the order of the
families. -/
theorem node_power_accumulation_totals (ppOf : Int → Int) (busIdx : List Int)
    (fams : List FamData) (_hinj : Function.Injective ppOf)
    (hok : ∀ fd ∈ fams, ∀ sides, fd.output = some sides →
      sides.all (fun rows => rows.isEmpty) = false → fd.hasInput = true) :
    accumulatePower ppOf busIdx fams
      = .ok (busIdx.map (fun b =>
          (b, (fams.map (famTotalP ppOf b)).sum / 1000000,
              (fams.map (famTotalQ ppOf b)).sum / 1000000))) ∧
    ∀ fams₂, fams₂.Perm fams →
      accumulatePower ppOf busIdx fams₂ = accumulatePower ppOf busIdx fams := by
  have hmain : ∀ (fams' : List FamData),
      (∀ fd ∈ fams', ∀ sides, fd.output = some sides →
        sides.all (fun rows => rows.isEmpty) = false → fd.hasInput = true) →
      accumulatePower ppOf busIdx fams'
        = .ok (busIdx.map (fun b =>
            (b, (fams'.map (famTotalP ppOf b)).sum / 1000000,
                (fams'.map (famTotalQ ppOf b)).sum / 1000000))) := by
    intro fams' hok'
    unfold accumulatePower
    have hinit : busIdx.map (fun b => ((b, 0, 0) : Int × ℚ × ℚ))
        = busIdx.map (fun b => (b, (fun _ : Int => (0 : ℚ)) b,
            (fun _ : Int => (0 : ℚ)) b)) := rfl
    rw [hinit, foldlM_famStep ppOf fams' hok' _ _ busIdx]
    simp only [Except.map, List.map_map]
    congr 1
    apply List.map_congr_left
    intro b _
    simp only [Function.comp_apply, zero_add]
  refine ⟨hmain fams hok, ?_⟩
  intro fams₂ hperm
  have hok₂ : ∀ fd ∈ fams₂, ∀ sides, fd.output = some sides →
      sides.all (fun rows => rows.isEmpty) = false → fd.hasInput = true :=
    fun fd hfd => hok fd (hperm.mem_iff.mp hfd)
  rw [hmain fams hok, hmain fams₂ hok₂]
  congr 1
  apply List.map_congr_left
  intro b _
  have hp : (fams₂.map (famTotalP ppOf b)).sum
      = (fams.map (famTotalP ppOf b)).sum :=
    (hperm.map (famTotalP ppOf b)).sum_eq
  have hq : (fams₂.map (famTotalQ ppOf b)).sum
      = (fams.map (famTotalQ ppOf b)).sum :=
    (hperm.map (famTotalQ ppOf b)).sum_eq
  rw [hp, hq]

/-- Witness for the accumulation theorem: a two-sided family (a line with
terminals at nodes 0 and 1) plus an absent family, over buses `[0, 1]` with
the identity node map. -/
theorem node_power_accumulation_totals_witness :
    accumulatePower (fun n => n) [0, 1]
        [⟨some [[(0, 3, 5)], [(1, 7, 11)]], true⟩, ⟨none, false⟩]
      = .ok [(0, 3 / 1000000, 5 / 1000000), (1, 7 / 1000000, 11 / 1000000)] := by
  have h := (node_power_accumulation_totals (fun n => n) [0, 1]
    [⟨some [[(0, 3, 5)], [(1, 7, 11)]], true⟩, ⟨none, false⟩]
    (fun a b hab => hab)
    (by
      intro fd hfd sides hsides hall
      rcases List.mem_cons.mp hfd with h1 | h1
      · subst h1; rfl
      · rcases List.mem_cons.mp h1 with h2 | h2
        · subst h2; simp at hsides
        · cases h2)).1
  rw [h]
  simp [famTotalP, famTotalQ]

/-- The inner `get_std_value` closure computes exactly the claim's per-row
type-library value (and raises exactly when that value is undefined). -/
theorem getStdValue_spec (stds : List (String × List (String × PPVal)))
    (attr : String) (default : Option ℚ) (v : PPVal) :
    exceptToOption (getStdValue stds attr default v)
      = specAttrRowValue stds attr default v := by
  cases v with
  | num x => rfl
  | str nm =>
    simp only [getStdValue, specAttrRowValue]
    cases h1 : assocFind stds nm with
    | none => rfl
    | some attrs =>
      dsimp only
      cases h2 : assocFind attrs attr with
      | some w => rfl
      | none => cases default <;> rfl

/-- Row-wise resolution succeeds when every row's claim-value is defined,
returning those values in order. -/
theorem resolveRows_ok_of_all (stds : List (String × List (String × PPVal)))
    (attr : String) (default : Option ℚ) :
    ∀ (l : List PPVal),
      (∀ v ∈ l, (specAttrRowValue stds attr default v).isSome) →
      resolveRows stds attr default l
        = .ok (l.map (fun v =>
            (specAttrRowValue stds attr default v).getD (.num 0))) := by
  intro l
  induction l with
  | nil => intro _; rfl
  | cons v rest ih =>
    intro hall
    have hv := hall v (List.mem_cons_self v rest)
    obtain ⟨w, hw⟩ := Option.isSome_iff_exists.mp hv
    have hg : getStdValue stds attr default v = .ok w := by
      have hb := getStdValue_spec stds attr default v
      rw [hw] at hb
      cases hgv : getStdValue stds attr default v with
      | ok a => rw [hgv] at hb; simp only [exceptToOption] at hb
                rw [Option.some_inj.mp hb]
      | error e => rw [hgv] at hb; simp [exceptToOption] at hb
    have hrest := ih (fun x hx => hall x (List.mem_cons_of_mem _ hx))
    unfold resolveRows
    rw [hg]
    dsimp only
    rw [hrest]
    dsimp only
    rw [List.map_cons, hw]
    rfl

/-- Row-wise resolution raises as soon as some row's claim-value is
undefined (unknown type name, or missing attribute with no default). -/
theorem resolveRows_error_of_bad (stds : List (String × List (String × PPVal)))
    (attr : String) (default : Option ℚ) :
    ∀ (l : List PPVal),
      (∃ v ∈ l, specAttrRowValue stds attr default v = none) →
      ∃ e, resolveRows stds attr default l = .error e := by
  intro l
  induction l with
  | nil =>
    intro h
    obtain ⟨v, hv, _⟩ := h
    cases hv
  | cons v rest ih =>
    intro h
    obtain ⟨v', hv', hnone⟩ := h
    cases hgv : getStdValue stds attr default v with
    | error e =>
      refine ⟨e, ?_⟩
      unfold resolveRows
      rw [hgv]
    | ok w =>
      rcases List.mem_cons.mp hv' with hv0 | hv0
      · subst hv0
        have hb := getStdValue_spec stds attr default v'
        rw [hgv, hnone] at hb
        simp [exceptToOption] at hb
      · obtain ⟨e, he⟩ := ih ⟨v', hv0, hnone⟩
        refine ⟨e, ?_⟩
        unfold resolveRows
        rw [hgv]
        dsimp only
        rw [he]

/-- Claim C7: the attribute resolver's case analysis.  (1) A table column
named `attribute` is returned verbatim; (2) else, when the library covers
the table and the table has a `std_type` column, the per-row type-library
values are returned (with `default` substituted where a type lacks the
attribute), and the resolver fails exactly when some row's value is
undefined; (3) else a given scalar default is returned; (4) else it
fails. -/
theorem attr_resolution_cases (stdTypes : StdLib) (table : String)
    (tbl : PPTable) (attr : String) (default : Option ℚ) :
    (∀ vs, assocFind tbl.cols attr = some vs →
      get_pp_attr stdTypes table tbl attr default = .ok (.col vs)) ∧
    (∀ stds stcol, assocFind tbl.cols attr = none →
      assocFind stdTypes table = some stds →
      assocFind tbl.cols "std_type" = some stcol →
      ((∀ v ∈ stcol, (specAttrRowValue stds attr default v).isSome) →
        get_pp_attr stdTypes table tbl attr default
          = .ok (.col (stcol.map (fun v =>
              (specAttrRowValue stds attr default v).getD (.num 0))))) ∧
      ((∃ v ∈ stcol, specAttrRowValue stds attr default v = none) →
        ∃ e, get_pp_attr stdTypes table tbl attr default = .error e)) ∧
    (assocFind tbl.cols attr = none →
      (assocFind stdTypes table = none ∨ assocFind tbl.cols "std_type" = none) →
      (∀ d, default = some d →
        get_pp_attr stdTypes table tbl attr default = .ok (.scalar d)) ∧
      (default = none →
        get_pp_attr stdTypes table tbl attr default
          = .error "KeyError: No attribute value")) := by
  refine ⟨?_, ?_, ?_⟩
  · intro vs hvs
    unfold get_pp_attr
    rw [hvs]
  · intro stds stcol hattr hstds hstcol
    constructor
    · intro hall
      unfold get_pp_attr
      rw [hattr]
      dsimp only
      rw [hstds, hstcol]
      dsimp only
      rw [resolveRows_ok_of_all stds attr default stcol hall]
    · intro hbad
      obtain ⟨e, he⟩ := resolveRows_error_of_bad stds attr default stcol hbad
      refine ⟨e, ?_⟩
      unfold get_pp_attr
      rw [hattr]
      dsimp only
      rw [hstds, hstcol]
      dsimp only
      rw [he]
  · intro hattr hmiss
    constructor
    · intro d hd
      unfold get_pp_attr
      rw [hattr]
      dsimp only
      rcases hmiss with hm | hm
      · rw [hm]
        cases hstc : assocFind tbl.cols "std_type" <;>
          · dsimp only
            rw [hd]
      · rw [hm]
        cases hstd : assocFind stdTypes table <;>
          · dsimp only
            rw [hd]
    · intro hd
      unfold get_pp_attr
      rw [hattr]
      dsimp only
      rcases hmiss with hm | hm
      · rw [hm]
        cases hstc : assocFind tbl.cols "std_type" <;>
          · dsimp only
            rw [hd]
      · rw [hm]
        cases hstd : assocFind stdTypes table <;>
          · dsimp only
            rw [hd]

/-- Witness for the attribute-resolution theorem: a `trafo` table without a
`vk_percent` column but with a `std_type` column resolves `vk_percent`
through the type library. -/
theorem attr_resolution_cases_witness :
    get_pp_attr [("trafo", [("T1", [("vk_percent", .num 6)])])] "trafo"
        ⟨[("std_type", [.str "T1"])]⟩ "vk_percent" none
      = .ok (.col [.num 6]) := by
  have h := ((attr_resolution_cases
    [("trafo", [("T1", [("vk_percent", .num 6)])])] "trafo"
    ⟨[("std_type", [.str "T1"])]⟩ "vk_percent" none).2.1
    [("T1", [("vk_percent", .num 6)])] [.str "T1"]
    (by decide) (by decide) (by decide)).1 (by decide)
  rw [h]
  decide

/-- Consuming a literal succeeds exactly on inputs starting with it. -/
theorem dropLead_some : ∀ (g s r : List Char), dropLead g s = some r ↔ s = g ++ r := by
  intro g
  induction g with
  | nil =>
    intro s r
    simp [dropLead]
  | cons a as ih =>
    intro s r
    cases s with
    | nil => simp [dropLead]
    | cons b bs =>
      simp only [dropLead]
      by_cases h : a = b
      · subst h
        rw [if_pos rfl, ih bs r]
        simp [List.cons_append]
      · rw [if_neg h]
        constructor
        · intro hh; cases hh
        · intro hh
          injection hh with h1 _
          exact absurd h1.symm h

/-- A successful `tryPair` returns its own groups and certifies the
decomposition. -/
theorem tryPair_eq_some (s g1 g2 h1 h2 : List Char)
    (hh : tryPair s g1 g2 = some (h1, h2)) :
    h1 = g1 ∧ h2 = g2 ∧
    ∃ ds, s = g1 ++ (g2 ++ ds) ∧ ds.all Char.isDigit = true := by
  unfold tryPair at hh
  cases hd1 : dropLead g1 s with
  | none => rw [hd1] at hh; cases hh
  | some r1 =>
    rw [hd1] at hh
    dsimp only at hh
    cases hd2 : dropLead g2 r1 with
    | none => rw [hd2] at hh; cases hh
    | some r2 =>
      rw [hd2] at hh
      dsimp only at hh
      by_cases hdig : r2.all Char.isDigit
      · rw [if_pos hdig] at hh
        injection hh with hp
        injection hp with hp1 hp2
        refine ⟨hp1.symm, hp2.symm, r2, ?_, hdig⟩
        rw [(dropLead_some g1 s r1).mp hd1, (dropLead_some g2 r1 r2).mp hd2]
      · rw [if_neg hdig] at hh
        cases hh

/-- `tryPair` succeeds on a grammatical decomposition. -/
theorem tryPair_of_decomp (s g1 g2 ds : List Char)
    (hs : s = g1 ++ (g2 ++ ds)) (hdig : ds.all Char.isDigit = true) :
    tryPair s g1 g2 = some (g1, g2) := by
  have hd1 : dropLead g1 s = some (g2 ++ ds) := (dropLead_some g1 s _).mpr hs
  have hd2 : dropLead g2 (g2 ++ ds) = some ds := (dropLead_some g2 _ _).mpr rfl
  unfold tryPair
  rw [hd1]
  dsimp only
  rw [hd2]
  dsimp only
  rw [if_pos hdig]

/-- A member of a list on which the function fires makes `findSome?`
fire. -/
theorem findSome?_isSome_of_mem {α β : Type} (f : α → Option β) :
    ∀ (l : List α) (a : α), a ∈ l → (f a).isSome →
      (l.findSome? f).isSome := by
  intro l
  induction l with
  | nil => intro a ha; cases ha
  | cons x xs ih =>
    intro a ha hf
    rw [List.findSome?_cons]
    cases hfx : f x with
    | some b => simp
    | none =>
      rcases List.mem_cons.mp ha with h1 | h1
      · subst h1; rw [hfx] at hf; cases hf
      · exact ih a h1 hf

/-- Claim C8: parsing a two-winding vector-group code succeeds exactly when
the string is one uppercase group from {Y, YN, D, Z, ZN}, then one
lowercase group from {y, yn, d, z, zn}, then optional clock digits — and
fails (`InvalidVectorGroupError` / `ValueError`) otherwise; in particular
"Dyn11" parses to (delta, star-with-neutral). -/
theorem vector_group_parse_iff_grammar :
    (∀ s : List Char,
      (∃ w, vector_group_to_winding_types s = .ok w) ↔
      (∃ g1 ∈ uppers, ∃ g2 ∈ lowers, ∃ ds,
        s = g1 ++ (g2 ++ ds) ∧ ds.all Char.isDigit = true)) ∧
    vector_group_to_winding_types ['D', 'y', 'n', '1', '1']
      = .ok (.delta, .star_n) := by
  constructor
  · intro s
    constructor
    · intro hok
      obtain ⟨w, hw⟩ := hok
      unfold vector_group_to_winding_types at hw
      cases hf : fullmatchPP s with
      | none => rw [hf] at hw; cases hw
      | some p =>
        obtain ⟨g1, g2⟩ := p
        obtain ⟨q, hq, htry⟩ :=
          List.exists_of_findSome?_eq_some hf
        obtain ⟨hg1, hg2, ds, hds, hdig⟩ :=
          tryPair_eq_some s q.1 q.2 g1 g2 htry
        have hqmem := hq
        rw [List.mem_flatMap] at hqmem
        obtain ⟨u, hu, hq2⟩ := hqmem
        rw [List.mem_map] at hq2
        obtain ⟨v, hv, hq3⟩ := hq2
        refine ⟨q.1, ?_, q.2, ?_, ds, hds, hdig⟩
        · rw [← hq3]; exact hu
        · rw [← hq3]; exact hv
    · intro hdec
      obtain ⟨g1, hg1, g2, hg2, ds, hds, hdig⟩ := hdec
      have htry := tryPair_of_decomp s g1 g2 ds hds hdig
      have hmem : (g1, g2) ∈
          uppers.flatMap (fun a => lowers.map (fun b => (a, b))) := by
        rw [List.mem_flatMap]
        exact ⟨g1, hg1, List.mem_map.mpr ⟨g2, hg2, rfl⟩⟩
      have hsome : (fullmatchPP s).isSome :=
        findSome?_isSome_of_mem _ _ (g1, g2) hmem (by rw [htry]; rfl)
      obtain ⟨p, hp⟩ := Option.isSome_iff_exists.mp hsome
      obtain ⟨q, hq, htry'⟩ := List.exists_of_findSome?_eq_some hp
      obtain ⟨hq1, hq2, _, _, _⟩ := tryPair_eq_some s q.1 q.2 p.1 p.2
        (by rw [← htry'])
      have hu : p.1 ∈ uppers := by
        rw [List.mem_flatMap] at hq
        obtain ⟨u, hu', hmm⟩ := hq
        rw [List.mem_map] at hmm
        obtain ⟨v, _, hvv⟩ := hmm
        rw [hq1, ← hvv]
        exact hu'
      have hl : p.2 ∈ lowers := by
        rw [List.mem_flatMap] at hq
        obtain ⟨u, _, hmm⟩ := hq
        rw [List.mem_map] at hmm
        obtain ⟨v, hv', hvv⟩ := hmm
        rw [hq2, ← hvv]
        exact hv'
      have hwu : (get_winding p.1).isSome := by
        simp only [uppers, List.mem_cons, List.not_mem_nil, or_false] at hu
        rcases hu with h | h | h | h | h <;> rw [h] <;> rfl
      have hwl : (get_winding p.2).isSome := by
        simp only [lowers, List.mem_cons, List.not_mem_nil, or_false] at hl
        rcases hl with h | h | h | h | h <;> rw [h] <;> rfl
      obtain ⟨w1, hw1⟩ := Option.isSome_iff_exists.mp hwu
      obtain ⟨w2, hw2⟩ := Option.isSome_iff_exists.mp hwl
      refine ⟨(w1, w2), ?_⟩
      unfold vector_group_to_winding_types
      rw [hp]
      dsimp only
      rw [hw1, hw2]
  · decide

/-- Witness for the parse theorem: "YNd5" is grammatical, hence parses. -/
theorem vector_group_parse_iff_grammar_witness :
    ∃ w, vector_group_to_winding_types ['Y', 'N', 'd', '5'] = .ok w :=
  (vector_group_parse_iff_grammar.1 ['Y', 'N', 'd', '5']).mpr
    ⟨['Y', 'N'], by decide, ['d'], by decide, ['5'], by decide, by decide⟩

end PandaPowerConverter
